import Mathlib

/-!
Verification development for the `vllm-kubernetes-plugin` observability core.

Shallow embedding of:
  * `src/vllm_kubernetes_plugin/middleware.py` — `SSEDecoder`,
    `_extract_content_from_chunk` (duplicated in `log_request_response.py`);
  * `src/vllm_kubernetes_plugin/log_request_response.py` —
    `_log_streaming_response_with_context.buffered_iterator`, `log_response`;
  * `src/vllm_kubernetes_plugin/trace.py` — `parse_method_name`,
    `create_traced_method`;
  * `src/vllm_kubernetes_plugin/common/logger_plugin.py` — `reset_logger_config`;
  * `scripts/utils.py` — `find_logger_modules`, `find_methods_with_request_id`.

Python byte strings are `List Nat` (byte values), Python `str` is `List Char`
(Unicode code points) or Lean `String` where convenient.
-/

namespace VKP

/-! ## UTF-8 decoding

Model of Python `bytes.decode("utf-8")` with strict error handling: rejects
continuation bytes in lead position, overlong encodings, surrogates,
code points above U+10FFFF, and truncated sequences. `decodeOne` consumes
one scalar value from the front of the byte list. -/

def isCont (b : Nat) : Bool := 0x80 ≤ b && b < 0xC0

def decodeOne : List Nat → Option (Char × List Nat)
  | [] => none
  | b0 :: rest =>
    if b0 < 0x80 then some (Char.ofNat b0, rest)
    else if b0 < 0xC2 then none
    else if b0 < 0xE0 then
      match rest with
      | b1 :: r1 =>
        if isCont b1 then some (Char.ofNat ((b0 - 0xC0) * 0x40 + (b1 - 0x80)), r1)
        else none
      | [] => none
    else if b0 < 0xF0 then
      match rest with
      | b1 :: b2 :: r2 =>
        if isCont b1 && isCont b2
            && (decide (b0 ≠ 0xE0) || decide (0xA0 ≤ b1))
            && (decide (b0 ≠ 0xED) || decide (b1 < 0xA0)) then
          some (Char.ofNat ((b0 - 0xE0) * 0x1000 + (b1 - 0x80) * 0x40 + (b2 - 0x80)), r2)
        else none
      | _ => none
    else if b0 < 0xF5 then
      match rest with
      | b1 :: b2 :: b3 :: r3 =>
        if isCont b1 && isCont b2 && isCont b3
            && (decide (b0 ≠ 0xF0) || decide (0x90 ≤ b1))
            && (decide (b0 ≠ 0xF4) || decide (b1 < 0x90)) then
          some (Char.ofNat ((b0 - 0xF0) * 0x40000 + (b1 - 0x80) * 0x1000
                  + (b2 - 0x80) * 0x40 + (b3 - 0x80)), r3)
        else none
      | _ => none
    else none

def utf8DecodeAux : Nat → List Nat → Option (List Char)
  | _, [] => some []
  | 0, _ :: _ => none
  | fuel + 1, b :: bs =>
    (decodeOne (b :: bs)).bind (fun p => (utf8DecodeAux fuel p.2).map (p.1 :: ·))

/-- Strict whole-buffer UTF-8 decoding; `none` models `UnicodeDecodeError`.
Each `decodeOne` step consumes at least one byte, so `bs.length` fuel is enough. -/
def utf8Decode (bs : List Nat) : Option (List Char) := utf8DecodeAux bs.length bs

/-- Model of a Python ASCII bytes literal: for ASCII text `s`, the bytes of
`s.encode("utf-8")` are exactly the code points. -/
def asciiBytes (s : String) : List Nat := s.data.map Char.toNat

/-! ## Line splitting

`splitLines` captures the loop
`while "\n" in self.buffer: line, self.buffer = self.buffer.split("\n", 1)`:
it returns the complete (newline-terminated) lines in order together with the
remaining incomplete tail. -/

def consLine (c : Char) : List (List Char) × List Char → List (List Char) × List Char
  | ([], r) => ([], c :: r)
  | (l :: ls, r) => ((c :: l) :: ls, r)

def splitLines : List Char → List (List Char) × List Char
  | [] => ([], [])
  | c :: cs =>
    if c = '\n' then ([] :: (splitLines cs).1, (splitLines cs).2)
    else consLine c (splitLines cs)

/-! ## Python string trimming helpers -/

def rstrip (p : Char → Bool) (l : List Char) : List Char := (l.reverse.dropWhile p).reverse

/-- Model of `line.rstrip("\r")`: drops every trailing carriage return. -/
def rstripCR (l : List Char) : List Char := rstrip (· = '\r') l

/-- ASCII whitespace recognized by Python `str.strip()` (the further Unicode
whitespace code points Python also strips cannot occur in the payloads the
decoder handles and are omitted). -/
def isPySpace (c : Char) : Bool :=
  c = ' ' || c = '\t' || c = '\n' || c = '\r' || c = '\x0b' || c = '\x0c'

/-- Model of `s.strip()`. -/
def pyStrip (l : List Char) : List Char := rstrip isPySpace (l.dropWhile isPySpace)

/-! ## JSON values and `json.loads`

Minimal model of the Python `json` module as used by the decoder. Numbers are
kept as their validated lexeme (the decoder never computes with them).
Object keys follow `dict` semantics: a duplicate key keeps the original
position and overwrites the value. A lone `\uXXXX` surrogate escape is
treated as a parse failure (Python would build a non-scalar string there;
such strings cannot occur in the streamed payloads this plugin observes). -/

inductive Json where
  | null
  | bool (b : Bool)
  | num (lexeme : String)
  | str (s : String)
  | arr (elems : List Json)
  | obj (fields : List (String × Json))

def setField : List (String × Json) → String → Json → List (String × Json)
  | [], k, v => [(k, v)]
  | (k', v') :: rest, k, v =>
    if k' = k then (k, v) :: rest else (k', v') :: setField rest k v

/-- Field lookup on an object (`chunk_data.get(key)` / `chunk_data[key]`);
`none` for a missing key or a non-object. -/
def jsonGet : Json → String → Option Json
  | .obj fields, key => fields.lookup key
  | _, _ => none

/-- Python truthiness of a decoded JSON value. -/
def jsonTruthy : Json → Bool
  | .null => false
  | .bool b => b
  | .num lx =>
    !((lx.data.any Char.isDigit)
      && (lx.data.takeWhile (fun c => c ≠ 'e' && c ≠ 'E')).all
           (fun c => !(c.isDigit && c ≠ '0')))
  | .str s => s ≠ ""
  | .arr l => !l.isEmpty
  | .obj f => !f.isEmpty

def isJsonWs (c : Char) : Bool := c = ' ' || c = '\t' || c = '\n' || c = '\r'

def skipWs (cs : List Char) : List Char := cs.dropWhile isJsonWs

def hexVal (c : Char) : Option Nat :=
  if '0' ≤ c ∧ c ≤ '9' then some (c.toNat - '0'.toNat)
  else if 'a' ≤ c ∧ c ≤ 'f' then some (c.toNat - 'a'.toNat + 10)
  else if 'A' ≤ c ∧ c ≤ 'F' then some (c.toNat - 'A'.toNat + 10)
  else none

def hex4 : List Char → Option (Nat × List Char)
  | a :: b :: c :: d :: rest => do
    let x ← hexVal a
    let y ← hexVal b
    let z ← hexVal c
    let w ← hexVal d
    pure (((x * 16 + y) * 16 + z) * 16 + w, rest)
  | _ => none

/-- Body of a JSON string after the opening quote: returns the decoded
characters and the input after the closing quote. -/
def parseStringChars : Nat → List Char → Option (List Char × List Char)
  | 0, _ => none
  | _, [] => none
  | fuel + 1, c :: rest =>
    if c = '"' then some ([], rest)
    else if c = '\\' then
      match rest with
      | [] => none
      | e :: rest2 =>
        if e = '"' then (parseStringChars fuel rest2).map (fun p => ('"' :: p.1, p.2))
        else if e = '\\' then (parseStringChars fuel rest2).map (fun p => ('\\' :: p.1, p.2))
        else if e = '/' then (parseStringChars fuel rest2).map (fun p => ('/' :: p.1, p.2))
        else if e = 'b' then (parseStringChars fuel rest2).map (fun p => ('\x08' :: p.1, p.2))
        else if e = 'f' then (parseStringChars fuel rest2).map (fun p => ('\x0c' :: p.1, p.2))
        else if e = 'n' then (parseStringChars fuel rest2).map (fun p => ('\n' :: p.1, p.2))
        else if e = 'r' then (parseStringChars fuel rest2).map (fun p => ('\r' :: p.1, p.2))
        else if e = 't' then (parseStringChars fuel rest2).map (fun p => ('\t' :: p.1, p.2))
        else if e = 'u' then
          match hex4 rest2 with
          | none => none
          | some (n, rest3) =>
            if 0xD800 ≤ n ∧ n ≤ 0xDBFF then
              match rest3 with
              | '\\' :: 'u' :: rest4 =>
                match hex4 rest4 with
                | some (m, rest5) =>
                  if 0xDC00 ≤ m ∧ m ≤ 0xDFFF then
                    (parseStringChars fuel rest5).map
                      (fun p => (Char.ofNat (0x10000 + (n - 0xD800) * 0x400 + (m - 0xDC00)) :: p.1, p.2))
                  else none
                | none => none
              | _ => none
            else if 0xDC00 ≤ n ∧ n ≤ 0xDFFF then none
            else (parseStringChars fuel rest3).map (fun p => (Char.ofNat n :: p.1, p.2))
        else none
    else if c.toNat < 0x20 then none
    else (parseStringChars fuel rest).map (fun p => (c :: p.1, p.2))

/-- Optional fraction part `.[0-9]+`; fails on a dot without digits. -/
def parseFracPart : List Char → Option (List Char × List Char)
  | '.' :: rest =>
    let ds := rest.takeWhile Char.isDigit
    if ds = [] then none else some ('.' :: ds, rest.dropWhile Char.isDigit)
  | cs => some ([], cs)

/-- Optional exponent part `[eE][+-]?[0-9]+`; fails on a marker without digits. -/
def parseExpPart : List Char → Option (List Char × List Char)
  | [] => some ([], [])
  | c :: rest =>
    if c = 'e' ∨ c = 'E' then
      let (sign, rest2) :=
        match rest with
        | s :: t => if s = '+' ∨ s = '-' then ([s], t) else (([] : List Char), s :: t)
        | [] => ([], [])
      let ds := rest2.takeWhile Char.isDigit
      if ds = [] then none
      else some (c :: (sign ++ ds), rest2.dropWhile Char.isDigit)
    else some ([], c :: rest)

/-- JSON number lexeme `-?(0|[1-9][0-9]*)(\.[0-9]+)?([eE][+-]?[0-9]+)?`. -/
def parseNumber (cs : List Char) : Option (String × List Char) := do
  let (neg, cs1) :=
    match cs with
    | '-' :: t => ((['-'] : List Char), t)
    | _ => ([], cs)
  let (ip, cs2) ←
    match cs1 with
    | '0' :: t => some ((['0'] : List Char), t)
    | c :: t =>
      if c.isDigit ∧ c ≠ '0' then some (c :: t.takeWhile Char.isDigit, t.dropWhile Char.isDigit)
      else none
    | [] => none
  let (fp, cs3) ← parseFracPart cs2
  let (ep, cs4) ← parseExpPart cs3
  pure (String.mk (neg ++ ip ++ fp ++ ep), cs4)

mutual

/-- Recursive-descent JSON value parser; fuel bounds the recursion depth
(every two nested calls consume at least one input character). -/
def parseValue : Nat → List Char → Option (Json × List Char)
  | 0, _ => none
  | fuel + 1, cs =>
    match skipWs cs with
    | '{' :: rest =>
      match skipWs rest with
      | '}' :: rest2 => some (.obj [], rest2)
      | _ => (parseMembers fuel (skipWs rest) []).map (fun p => (Json.obj p.1, p.2))
    | '[' :: rest =>
      match skipWs rest with
      | ']' :: rest2 => some (.arr [], rest2)
      | _ => (parseElems fuel (skipWs rest) []).map (fun p => (Json.arr p.1, p.2))
    | '"' :: rest => (parseStringChars rest.length rest).map (fun p => (Json.str (String.mk p.1), p.2))
    | 't' :: 'r' :: 'u' :: 'e' :: r => some (.bool true, r)
    | 'f' :: 'a' :: 'l' :: 's' :: 'e' :: r => some (.bool false, r)
    | 'n' :: 'u' :: 'l' :: 'l' :: r => some (.null, r)
    | 'N' :: 'a' :: 'N' :: r => some (.num "NaN", r)
    | 'I' :: 'n' :: 'f' :: 'i' :: 'n' :: 'i' :: 't' :: 'y' :: r => some (.num "Infinity", r)
    | '-' :: 'I' :: 'n' :: 'f' :: 'i' :: 'n' :: 'i' :: 't' :: 'y' :: r => some (.num "-Infinity", r)
    | other => (parseNumber other).map (fun p => (Json.num p.1, p.2))

/-- Members of an object after `{` (first member not yet consumed). -/
def parseMembers : Nat → List Char → List (String × Json) → Option (List (String × Json) × List Char)
  | 0, _, _ => none
  | fuel + 1, cs, acc =>
    match skipWs cs with
    | '"' :: rest =>
      match parseStringChars rest.length rest with
      | none => none
      | some (k, rest2) =>
        match skipWs rest2 with
        | ':' :: rest3 =>
          match parseValue fuel rest3 with
          | none => none
          | some (v, rest4) =>
            match skipWs rest4 with
            | ',' :: rest5 => parseMembers fuel rest5 (setField acc (String.mk k) v)
            | '}' :: rest5 => some (setField acc (String.mk k) v, rest5)
            | _ => none
        | _ => none
    | _ => none

/-- Elements of an array after `[` (first element not yet consumed). -/
def parseElems : Nat → List Char → List Json → Option (List Json × List Char)
  | 0, _, _ => none
  | fuel + 1, cs, acc =>
    match parseValue fuel cs with
    | none => none
    | some (v, rest) =>
      match skipWs rest with
      | ',' :: rest2 => parseElems fuel rest2 (acc ++ [v])
      | ']' :: rest2 => some (acc ++ [v], rest2)
      | _ => none

end

/-- Model of `json.loads`: a full parse with nothing but whitespace left over;
`none` models `json.JSONDecodeError`. -/
def jsonParse (cs : List Char) : Option Json :=
  match parseValue (2 * cs.length + 2) cs with
  | some (v, rest) => if skipWs rest = [] then some v else none
  | none => none

/-! ## Content extraction (`_extract_content_from_chunk`)

The code first dispatches on the `object` discriminator and tries a typed
pydantic parse (`ChatCompletionStreamResponse` / `CompletionStreamResponse`
from the external host package), falling back on `ValidationError` to
permissive field-presence extraction from the raw mapping. Modelled from the
spec for the external typed path: for the two known discriminators both
paths read `choices[0].delta.content` resp. `choices[0].text`, so we model
the extraction with the permissive raw-mapping logic of the fallback branch;
any other discriminator yields `""`. Content values are modelled as strings
(the only shape the protocol carries). -/

def choiceText (choice : Json) : String :=
  match jsonGet choice "text" with
  | some v => if jsonTruthy v then (match v with | .str s => s | _ => "") else ""
  | none => ""

def manualExtract (chunk_data : Json) : String :=
  match jsonGet chunk_data "choices" with
  | some (Json.arr (choice :: _)) =>
    match (jsonGet choice "delta").bind (fun d => jsonGet d "content") with
    | some v => if jsonTruthy v then (match v with | .str s => s | _ => "") else choiceText choice
    | none => choiceText choice
  | _ => ""

def _extract_content_from_chunk (chunk_data : Json) : String :=
  match jsonGet chunk_data "object" with
  | some (Json.str "chat.completion.chunk") => manualExtract chunk_data
  | some (Json.str "text_completion") => manualExtract chunk_data
  | _ => ""

/-! ## `SSEDecoder` -/

inductive SSEEvent where
  | done
  | data (payload : Json)

def SSEEvent.isDone : SSEEvent → Bool
  | .done => true
  | .data _ => false

structure SSEDecoder where
  buffer : List Char
  content_buffer : List String

/-- Fresh decoder as built by `SSEDecoder.__init__`. -/
def SSEDecoder.init : SSEDecoder := ⟨[], []⟩

/-- One iteration of the line-processing loop body of `decode_chunk`: the
event (if any) contributed by one complete line. `none` covers lines without
the `data: ` marker, an empty payload, and malformed JSON (the
`json.JSONDecodeError` handler does `continue`). -/
def processLine (rawLine : List Char) : Option SSEEvent :=
  let line := rstripCR rawLine
  if List.isPrefixOf "data: ".data line then
    let data_str := pyStrip (line.drop 6)
    if data_str = "[DONE]".data then some .done
    else if data_str = [] then none
    else
      match jsonParse data_str with
      | some j => some (.data j)
      | none => none
  else none

/-- Model of `SSEDecoder.decode_chunk`: on a `UnicodeDecodeError` the chunk
is skipped wholesale; otherwise the decoded text joins the buffer, every
complete line is processed in order, and the incomplete tail is retained. -/
def SSEDecoder.decode_chunk (s : SSEDecoder) (chunk : List Nat) : List SSEEvent × SSEDecoder :=
  match utf8Decode chunk with
  | none => ([], s)
  | some chunkStr =>
    let split := splitLines (s.buffer ++ chunkStr)
    (split.1.filterMap processLine, { s with buffer := split.2 })

def SSEDecoder.extract_content (_s : SSEDecoder) (event_data : Json) : String :=
  _extract_content_from_chunk event_data

def SSEDecoder.add_content (s : SSEDecoder) (content : String) : SSEDecoder :=
  if content ≠ "" then { s with content_buffer := s.content_buffer ++ [content] } else s

def SSEDecoder.get_complete_content (s : SSEDecoder) : String :=
  String.join s.content_buffer

/-- Payload carried by the chunk of claim C3. -/
def c3Payload : Json :=
  Json.obj [("object", Json.str "chat.completion.chunk"),
    ("choices", Json.arr [Json.obj [("delta", Json.obj [("content", Json.str "Hi")])]])]

/-! ## Streaming interceptor (`log_request_response.py`)

`buffered_iterator` yields each captured chunk, then feeds it to the
`SSEDecoder`; when the decoded events of the current chunk contain a `done`
event the generator `return`s, ending the downstream iteration. We model the
sequence of chunks it yields (the log statements and content accumulation do
not influence the yielded sequence). -/

def _is_completion_endpoint (path : String) : Bool :=
  path = "/v1/chat/completions" || path = "/v1/completions"

def bufferedIterator : SSEDecoder → List (List Nat) → List (List Nat)
  | _, [] => []
  | st, ch :: rest =>
    let out := st.decode_chunk ch
    if out.1.any SSEEvent.isDone then [ch] else ch :: bufferedIterator out.2 rest

/-- Index of the first chunk whose decoding produces a `done` event
(`chunks.length` when none does). -/
def firstDoneIdx : SSEDecoder → List (List Nat) → Nat
  | _, [] => 0
  | st, ch :: rest =>
    let out := st.decode_chunk ch
    if out.1.any SSEEvent.isDone then 0 else 1 + firstDoneIdx out.2 rest

/-- Chunk sequence `log_response` hands to the real client: the captured body
is replayed via `iter(response_body)` unless the response is a streaming one
for a completion endpoint, in which case
`_log_streaming_response_with_context` installs `buffered_iterator` as the
body iterator. -/
def log_response_downstream (path contentType : String) (chunks : List (List Nat)) : List (List Nat) :=
  if !chunks.isEmpty && contentType = "text/event-stream; charset=utf-8"
      && _is_completion_endpoint path then
    bufferedIterator SSEDecoder.init chunks
  else chunks

/-! ## `parse_method_name` (`trace.py`)

`rsplitChar sep l` models `l.rsplit(sep, 1)`: it splits at the last
occurrence of `sep`, returning `none` when `sep` does not occur (the code
guards with `sep not in s` and raises `ValueError`). -/

def rsplitChar (sep : Char) : List Char → Option (List Char × List Char)
  | [] => none
  | c :: cs =>
    match rsplitChar sep cs with
    | some (pre, post) => some (c :: pre, post)
    | none => if c = sep then some ([], cs) else none

/-- Model of `parse_method_name`; `Except.error` models the `ValueError`. -/
def parse_method_name (method_full_name : String) : Except String (String × String × String) :=
  match rsplitChar ':' method_full_name.data with
  | none => .error ("Invalid method name format: `" ++ method_full_name
      ++ "`. Expected format: `module.class:method`")
  | some (module_class_part, method_name) =>
    match rsplitChar '.' module_class_part with
    | none => .error ("Invalid method name format: `" ++ method_full_name
        ++ "`. Expected format: `module.class:method`")
    | some (module_name, class_name) =>
      .ok (String.mk module_name, String.mk class_name, String.mk method_name)

/-! ## Traced-method wrapper (`create_traced_method`)

Python values are modelled by `PyVal` (enough structure for `is None`,
truthiness and `str()` interpolation); a call either returns a value or
raises, modelled by `RunResult`. The wrapped original method is an arbitrary
function from the received `(args, kwargs)` to a `RunResult`. Log output is
modelled as the ordered list of `(logger name, level, message)` records the
wrapper emits. -/

inductive PyVal where
  | none
  | str (s : String)
  | int (n : Int)
  | obj (id : Nat)
deriving DecidableEq

def PyVal.truthy : PyVal → Bool
  | .none => false
  | .str s => s ≠ ""
  | .int n => n ≠ 0
  | .obj _ => true

/-- Model of `str(v)` as used by f-string interpolation. -/
def PyVal.pyStr : PyVal → String
  | .none => "None"
  | .str s => s
  | .int n => toString n
  | .obj i => "<object " ++ toString i ++ ">"

inductive RunResult (α : Type) where
  | ok (a : α)
  | exn (name : String)
deriving DecidableEq

inductive LogLevel where
  | info
  | warning
deriving DecidableEq

structure LogEntry where
  logger : String
  level : LogLevel
  msg : String
deriving DecidableEq

/-- Logger name of `trace.py` itself (`logging.getLogger(__name__)`). -/
def traceModuleLogger : String := "vllm_kubernetes_plugin.trace"

abbrev PyMethod := List PyVal → List (String × PyVal) → RunResult PyVal

/-- Resolution `kwargs.get("request_id") or args[request_id_index]`:
`kwargs.get` defaults to `None`; the `or` takes the keyword value when
truthy, else indexes `args`, raising `IndexError` when the index is out of
range. -/
def resolveRequestId (kwargs : List (String × PyVal)) (args : List PyVal)
    (request_id_index : Nat) : RunResult PyVal :=
  let kw := (kwargs.lookup "request_id").getD PyVal.none
  if kw.truthy then .ok kw
  else
    match args.get? request_id_index with
    | some v => .ok v
    | Option.none => .exn "IndexError"

/-- Model of the `wrapper` closure produced by `create_traced_method`,
returning the call outcome and the emitted log records. -/
def create_traced_method (module_name class_name method_name : String)
    (request_id_index : Nat) (method : PyMethod)
    (args : List PyVal) (kwargs : List (String × PyVal)) :
    RunResult PyVal × List LogEntry :=
  let method_full_name := module_name ++ "." ++ class_name ++ "." ++ method_name
  match resolveRequestId kwargs args request_id_index with
  | .exn e => (.exn e, [])
  | .ok request_id =>
    if request_id = PyVal.none then
      (method args kwargs,
        [⟨traceModuleLogger, .warning,
          "`request_id` not found in method " ++ method_full_name
            ++ ", executing without tracing"⟩])
    else
      let startLine : LogEntry :=
        ⟨module_name, .info,
          "[request_id=" ++ request_id.pyStr ++ "] Start calling method `"
            ++ method_full_name ++ "`"⟩
      match method args kwargs with
      | .ok result =>
        (.ok result,
          [startLine,
            ⟨module_name, .info,
              "[request_id=" ++ request_id.pyStr ++ "] End calling method `"
                ++ method_full_name ++ "`"⟩])
      | .exn e => (.exn e, [startLine])

/-- Substring test used to state the C5 containment facts. -/
def strContains (hay needle : String) : Bool :=
  (List.range (hay.data.length + 1)).any
    (fun i => List.isPrefixOf needle.data (hay.data.drop i))

/-! ## Log sink reconfiguration (`common/logger_plugin.py`) -/

structure LoggerEnv where
  appName : String
  logFormat : String
  dateFormat : String
  logFolder : String
  logFilename : String
  maxBytes : Nat
  backupCount : Nat
  logLevel : Nat
deriving DecidableEq

structure Formatter where
  fmt : String
  datefmt : String
deriving DecidableEq

inductive HandlerKind where
  | stream
  | rotatingFile (filename : String) (maxBytes : Nat) (backupCount : Nat) (encoding : String)
deriving DecidableEq

structure Handler where
  kind : HandlerKind
  formatter : Option Formatter
  level : Option Nat
deriving DecidableEq

structure ModelLogger where
  handlers : List Handler
deriving DecidableEq

def make_stream_handler : Handler := ⟨.stream, Option.none, Option.none⟩

def get_log_file_name (env : LoggerEnv) : String := env.logFolder ++ "/" ++ env.logFilename

def make_file_handler (env : LoggerEnv) : Handler :=
  ⟨.rotatingFile (get_log_file_name env) env.maxBytes env.backupCount "utf8",
    Option.none, Option.none⟩

/-- Model of `make_kubernetes_formatter`: the `{app_name}` placeholder is
substituted at formatter-build time. -/
def make_kubernetes_formatter (env : LoggerEnv) : Formatter :=
  ⟨if strContains env.logFormat "{app_name}" then
      env.logFormat.replace "{app_name}" env.appName
    else env.logFormat,
    env.dateFormat⟩

/-- Model of `logging.Logger.addHandler`: appends unless already present. -/
def addHandler (l : ModelLogger) (h : Handler) : ModelLogger :=
  if h ∈ l.handlers then l else ⟨l.handlers ++ [h]⟩

/-- Model of `reset_logger_config`: clear all handlers, then attach a stream
handler and a rotating file handler, both carrying the shared formatter and
level. -/
def reset_logger_config (env : LoggerEnv) (logger : ModelLogger) : ModelLogger :=
  let cleared : ModelLogger := { logger with handlers := [] }
  let formatter := make_kubernetes_formatter env
  let configured := [make_stream_handler, make_file_handler env].map
    (fun h => { h with formatter := some formatter, level := some env.logLevel })
  configured.foldl addHandler cleared

/-! ## Module scanner (`scripts/utils.py`)

The scanner walks the live package tree with `importlib`/`pkgutil`/`inspect`;
we embed the reflected structure as a tree: each module records whether
importing it succeeds (the `except` branch skips the whole subtree with a
warning), whether it binds a `logging.Logger` attribute literally named
`logger`, its classes (with the defining-module check and the method
signatures), and its submodules in `pkgutil.iter_modules` order.
`pkgutil.iter_modules` yields each submodule name at most once and submodule
names are Python identifiers (never containing a dot); trees with that shape
are singled out by `wfChildren`. -/

/-- Ascending code-point lexicographic comparison of Python strings (the
order `sorted` uses on `str`). -/
def lexLe : List Char → List Char → Bool
  | [], _ => true
  | _ :: _, [] => false
  | a :: as, b :: bs =>
    if a.toNat < b.toNat then true
    else if b.toNat < a.toNat then false
    else lexLe as bs

def pyStrLe (a b : String) : Prop := lexLe a.data b.data = true

instance : DecidableRel pyStrLe := fun _ _ => instDecidableEqBool _ _

/-- Model of Python `sorted` on a list of strings (a stable sort under a
total order; any sorting algorithm yields the same list). -/
def pySorted (l : List String) : List String := List.insertionSort pyStrLe l

structure PyMethodSig where
  name : String
  params : List String

structure PyClassDef where
  name : String
  definedHere : Bool
  methods : List PyMethodSig

mutual
inductive PyModuleTree where
  | node (importOk : Bool) (hasLogger : Bool) (classes : List PyClassDef)
      (children : PyModuleChildren)
inductive PyModuleChildren where
  | nil
  | cons (seg : String) (child : PyModuleTree) (rest : PyModuleChildren)
end

def childSegs : PyModuleChildren → List String
  | .nil => []
  | .cons seg _ rest => seg :: childSegs rest

mutual
/-- Modules visited by `_traverse_module` (in traversal order) whose `logger`
attribute check succeeds. -/
def loggerModsAux : String → PyModuleTree → List String
  | name, .node importOk hasLogger _ children =>
    if importOk then
      (if hasLogger then [name] else []) ++ loggerModsChildren name children
    else []

def loggerModsChildren : String → PyModuleChildren → List String
  | _, .nil => []
  | name, .cons seg child rest =>
    loggerModsAux (name ++ "." ++ seg) child ++ loggerModsChildren name rest
end

/-- Model of `find_logger_modules`: traverse, then `sorted(...)`. -/
def find_logger_modules (root_module_name : String) (t : PyModuleTree) : List String :=
  pySorted (loggerModsAux root_module_name t)

def _has_request_id_parameter (m : PyMethodSig) : Bool :=
  m.params.contains "request_id" || m.params.contains "req_id"

/-- Qualifying `"module.Class:method"` identifiers contributed by one module's
classes, in `inspect.getmembers` order. -/
def classMethods (module_name : String) (ignore_init : Bool) (classes : List PyClassDef) : List String :=
  classes.flatMap fun cls =>
    if cls.definedHere then
      cls.methods.filterMap fun m =>
        if _has_request_id_parameter m && !(ignore_init && m.name = "__init__") then
          some (module_name ++ "." ++ cls.name ++ ":" ++ m.name)
        else Option.none
    else []

/-- Model of `if method_full_name not in found_methods: found_methods.append(...)`. -/
def appendNew (acc : List String) (xs : List String) : List String :=
  xs.foldl (fun a x => if x ∈ a then a else a ++ [x]) acc

mutual
def methodsAux : Bool → String → PyModuleTree → List String → List String
  | ii, name, .node importOk _ classes children, acc =>
    if importOk then
      methodsChildren ii name children (appendNew acc (classMethods name ii classes))
    else acc

def methodsChildren : Bool → String → PyModuleChildren → List String → List String
  | _, _, .nil, acc => acc
  | ii, name, .cons seg child rest, acc =>
    methodsChildren ii name rest (methodsAux ii (name ++ "." ++ seg) child acc)
end

/-- Model of `find_methods_with_request_id`: traverse with the membership
dedup, then `sorted(...)`. -/
def find_methods_with_request_id (root_module_name : String) (ignore_init : Bool)
    (t : PyModuleTree) : List String :=
  pySorted (methodsAux ignore_init root_module_name t [])

def dotFree (s : String) : Bool := s.data.all (· ≠ '.')

mutual
/-- Well-formedness of the reflected tree: child segment names are distinct
identifiers without dots, recursively. -/
def wfTree : PyModuleTree → Bool
  | .node _ _ _ children => wfChildren children

def wfChildren : PyModuleChildren → Bool
  | .nil => true
  | .cons seg child rest =>
    dotFree seg && !(childSegs rest).contains seg && wfTree child && wfChildren rest
end

/-- Specification predicate used to reason about scanner output: `s` is the
dotted name `p` itself or extends it below a dot. -/
def dotExt (p s : String) : Prop := s = p ∨ ∃ r, s.data = p.data ++ '.' :: r

/-! # Theorems

General-purpose lemmas about the embedded operations first, then one theorem
per claim (with its witness or counterexample where required). -/

/-! ## UTF-8 concatenation lemmas -/

set_option maxRecDepth 10000 in
theorem decodeOne_append {bs : List Nat} {c : Char} {rest : List Nat} (tl : List Nat)
    (h : decodeOne bs = some (c, rest)) :
    decodeOne (bs ++ tl) = some (c, rest ++ tl) := by
  match bs with
  | [] => simp [decodeOne] at h
  | b0 :: r =>
    rcases r with _ | ⟨b1, _ | ⟨b2, _ | ⟨b3, r3⟩⟩⟩ <;>
      · simp only [decodeOne, List.cons_append, List.nil_append] at h ⊢
        split_ifs at h ⊢ <;>
          first
          | exact Option.noConfusion h
          | (injection h with hp
             injection hp with hc hrest
             subst hc
             subst hrest
             rfl)

theorem utf8DecodeAux_mono : ∀ {n m : Nat} {bs : List Nat} {s : List Char},
    utf8DecodeAux n bs = some s → n ≤ m → utf8DecodeAux m bs = some s
  | _, _, [], _, h, _ => by simpa [utf8DecodeAux] using h
  | 0, _, _ :: _, _, h, _ => by simp [utf8DecodeAux] at h
  | n + 1, m, b :: bs, s, h, hle => by
    obtain ⟨m', rfl⟩ : ∃ m', m = m' + 1 := ⟨m - 1, by omega⟩
    simp only [utf8DecodeAux] at h ⊢
    revert h
    cases hd : decodeOne (b :: bs) with
    | none => intro h; simp at h
    | some p =>
      intro h
      simp only [Option.some_bind] at h ⊢
      revert h
      cases ht : utf8DecodeAux n p.2 with
      | none => intro h; simp at h
      | some t =>
        intro h
        rw [utf8DecodeAux_mono ht (by omega : n ≤ m')]
        simpa using h

theorem utf8DecodeAux_append : ∀ {n m : Nat} {b1 b2 : List Nat} {s1 s2 : List Char},
    utf8DecodeAux n b1 = some s1 → utf8DecodeAux m b2 = some s2 →
    utf8DecodeAux (n + m) (b1 ++ b2) = some (s1 ++ s2)
  | n, m, [], _, s1, s2, h1, h2 => by
    simp only [utf8DecodeAux] at h1
    cases h1
    simpa using utf8DecodeAux_mono h2 (by omega : m ≤ n + m)
  | 0, _, _ :: _, _, _, _, h1, _ => by simp [utf8DecodeAux] at h1
  | n + 1, m, b :: bs, b2, s1, s2, h1, h2 => by
    simp only [utf8DecodeAux] at h1
    revert h1
    cases hd : decodeOne (b :: bs) with
    | none => intro h1; simp at h1
    | some p =>
      intro h1
      simp only [Option.some_bind] at h1
      revert h1
      cases ht : utf8DecodeAux n p.2 with
      | none => intro h1; simp at h1
      | some t =>
        intro h1
        simp only [Option.map_some'] at h1
        cases h1
        have hstep : decodeOne (b :: (bs ++ b2)) = some (p.1, p.2 ++ b2) :=
          decodeOne_append b2 hd
        show utf8DecodeAux (n + 1 + m) ((b :: bs) ++ b2) = some (p.1 :: t ++ s2)
        have hn : n + 1 + m = (n + m) + 1 := by omega
        rw [hn]
        have hstepview : utf8DecodeAux (n + m + 1) ((b :: bs) ++ b2)
            = (decodeOne (b :: (bs ++ b2))).bind
                (fun p => (utf8DecodeAux (n + m) p.2).map (p.1 :: ·)) := rfl
        rw [hstepview, hstep]
        simp only [Option.some_bind]
        rw [utf8DecodeAux_append ht h2]
        simp

theorem utf8Decode_append {b1 b2 : List Nat} {s1 s2 : List Char}
    (h1 : utf8Decode b1 = some s1) (h2 : utf8Decode b2 = some s2) :
    utf8Decode (b1 ++ b2) = some (s1 ++ s2) := by
  unfold utf8Decode at *
  rw [List.length_append]
  exact utf8DecodeAux_append h1 h2

/-! ## Line buffer lemmas -/

theorem splitLines_append (x y : List Char) :
    splitLines (x ++ y)
      = ((splitLines x).1 ++ (splitLines ((splitLines x).2 ++ y)).1,
         (splitLines ((splitLines x).2 ++ y)).2) := by
  induction x with
  | nil => simp [splitLines]
  | cons c cs ih =>
    by_cases hc : c = '\n'
    · subst hc
      simp [splitLines, ih]
    · rcases hS : splitLines cs with ⟨ls, r⟩
      rcases ls with _ | ⟨l, ls'⟩
      · have hcons : splitLines (c :: cs) = ([], c :: r) := by
          simp [splitLines, hc, hS, consLine]
        rw [List.cons_append]
        simp only [splitLines, hc, if_neg hc, ih, hS, hcons]
        rcases hM : splitLines (r ++ y) with ⟨mls, mr⟩
        simp only [List.nil_append, List.cons_append]
        simp [splitLines, hc, hM, consLine]
      · have hcons : splitLines (c :: cs) = ((c :: l) :: ls', r) := by
          simp [splitLines, hc, hS, consLine]
        rw [List.cons_append]
        simp only [splitLines, hc, if_neg hc, ih, hS, hcons]
        rcases hM : splitLines (r ++ y) with ⟨mls, mr⟩
        simp [consLine, hM]


/-! ## Claim C4: chunk-split equivalence -/

/-- C4 (amended): for every split of an SSE byte stream into two chunks AT A
UTF-8 CHARACTER BOUNDARY (each half individually decodable), feeding the two
chunks in order produces, in concatenation, exactly the events of feeding the
whole stream at once, and ends in the same decoder state. (The unamended
claim quantifies over arbitrary byte splits; a split inside a multi-byte
character makes both halves undecodable, so both are discarded —
`C4_counterexample`.) -/
theorem C4_split_chunks_preserve_events (st : SSEDecoder) (b1 b2 : List Nat)
    (s1 s2 : List Char) (h1 : utf8Decode b1 = some s1) (h2 : utf8Decode b2 = some s2) :
    (st.decode_chunk (b1 ++ b2)).1
        = (st.decode_chunk b1).1 ++ ((st.decode_chunk b1).2.decode_chunk b2).1
    ∧ (st.decode_chunk (b1 ++ b2)).2 = ((st.decode_chunk b1).2.decode_chunk b2).2 := by
  have hc : utf8Decode (b1 ++ b2) = some (s1 ++ s2) := utf8Decode_append h1 h2
  simp only [SSEDecoder.decode_chunk, h1, h2, hc]
  have hassoc : st.buffer ++ (s1 ++ s2) = (st.buffer ++ s1) ++ s2 :=
    (List.append_assoc _ _ _).symm
  rw [hassoc, splitLines_append (st.buffer ++ s1) s2]
  exact ⟨by simp [List.filterMap_append], rfl⟩

/-- Witness for C4 at a `data: [DONE]` frame split mid-line (between two
ASCII characters). -/
theorem C4_split_chunks_preserve_events_witness :
    (SSEDecoder.init.decode_chunk (asciiBytes "data: [DO" ++ asciiBytes "NE]\n")).1
        = (SSEDecoder.init.decode_chunk (asciiBytes "data: [DO")).1
            ++ ((SSEDecoder.init.decode_chunk (asciiBytes "data: [DO")).2.decode_chunk
                  (asciiBytes "NE]\n")).1
    ∧ (SSEDecoder.init.decode_chunk (asciiBytes "data: [DO" ++ asciiBytes "NE]\n")).2
        = ((SSEDecoder.init.decode_chunk (asciiBytes "data: [DO")).2.decode_chunk
              (asciiBytes "NE]\n")).2 :=
  C4_split_chunks_preserve_events SSEDecoder.init _ _ _ _ rfl rfl

/-- First half of the C4 counterexample stream: `data: "` then the lead byte
of the two-byte UTF-8 encoding of `é`. -/
def c4Bytes1 : List Nat := asciiBytes "data: \"" ++ [0xC3]

/-- Second half: the continuation byte of `é`, the closing quote, a newline. -/
def c4Bytes2 : List Nat := [0xA9] ++ asciiBytes "\"\n"

/-- C4 counterexample: the stream `data: "é"\n` (valid UTF-8, one complete
event) split between the two bytes of `é` yields NO events — each half fails
UTF-8 decoding and is discarded — while the unsplit stream yields one `data`
event, refuting the claim for arbitrary two-chunk splits. -/
theorem C4_counterexample :
    (SSEDecoder.init.decode_chunk (c4Bytes1 ++ c4Bytes2)).1
      ≠ (SSEDecoder.init.decode_chunk c4Bytes1).1
          ++ ((SSEDecoder.init.decode_chunk c4Bytes1).2.decode_chunk c4Bytes2).1 := by
  intro hcontra
  have hone : (SSEDecoder.init.decode_chunk (c4Bytes1 ++ c4Bytes2)).1.length = 1 := rfl
  have hzero : ((SSEDecoder.init.decode_chunk c4Bytes1).1
      ++ ((SSEDecoder.init.decode_chunk c4Bytes1).2.decode_chunk c4Bytes2).1).length = 0 := rfl
  rw [hcontra, hzero] at hone
  exact absurd hone (by omega)

/-! ## Claim C3: concrete SSE round trip -/

set_option maxRecDepth 100000 in
/-- C3: feeding the decoder
`b"data: \x7b\"object\":\"chat.completion.chunk\",\"choices\":[\x7b\"delta\":\x7b\"content\":\"Hi\"\x7d\x7d]\x7d\n\ndata: [DONE]\n\n"`
yields exactly one `data` event (with extracted content `"Hi"`) followed by
exactly one `done` event, and after adding the extracted content the
accumulated full content equals `"Hi"`. -/
theorem C3_sse_round_trip :
    (SSEDecoder.init.decode_chunk (asciiBytes "data: \x7b\"object\":\"chat.completion.chunk\",\"choices\":[\x7b\"delta\":\x7b\"content\":\"Hi\"\x7d\x7d]\x7d\n\ndata: [DONE]\n\n")).1
        = [SSEEvent.data c3Payload, SSEEvent.done]
    ∧ SSEDecoder.init.extract_content c3Payload = "Hi"
    ∧ ((SSEDecoder.init.decode_chunk (asciiBytes "data: \x7b\"object\":\"chat.completion.chunk\",\"choices\":[\x7b\"delta\":\x7b\"content\":\"Hi\"\x7d\x7d]\x7d\n\ndata: [DONE]\n\n")).2.add_content
          (SSEDecoder.init.extract_content c3Payload)).get_complete_content = "Hi" :=
  ⟨rfl, rfl, rfl⟩

/-! ## Claim C10: undecodable chunks are discarded wholesale -/

/-- C10: when the chunk bytes are not decodable as UTF-8, `decode_chunk`
returns the empty event list and a decoder state identical to the input
state (line buffer and content buffer unchanged): the chunk is discarded
entirely, never retained. -/
theorem C10_invalid_utf8_chunk_skipped (s : SSEDecoder) (chunk : List Nat)
    (h : utf8Decode chunk = none) :
    s.decode_chunk chunk = ([], s) := by
  simp [SSEDecoder.decode_chunk, h]

/-- Witness for C10 at a chunk holding a complete well-formed event line on
each side of an invalid byte `0xFF`. -/
theorem C10_invalid_utf8_chunk_skipped_witness :
    utf8Decode (asciiBytes "data: [DONE]\n" ++ [0xFF] ++ asciiBytes "data: [DONE]\n") = none
    ∧ SSEDecoder.init.decode_chunk
        (asciiBytes "data: [DONE]\n" ++ [0xFF] ++ asciiBytes "data: [DONE]\n")
        = ([], SSEDecoder.init) :=
  ⟨rfl, C10_invalid_utf8_chunk_skipped SSEDecoder.init _ rfl⟩

/-! ## Claim C8: malformed JSON frames are skipped, the stream continues -/

/-- C8: a complete line carrying the `data: ` marker whose trimmed remainder
is neither `[DONE]` nor empty nor valid JSON contributes no event and raises
no error: the chunk decodes to exactly the events of the other complete
lines, and the retained buffer for later chunks is unaffected. -/
theorem C8_malformed_json_skipped (st : SSEDecoder) (chunk : List Nat) (str : List Char)
    (pre post : List (List Char)) (line : List Char)
    (hdec : utf8Decode chunk = some str)
    (hsplit : (splitLines (st.buffer ++ str)).1 = pre ++ line :: post)
    (hmark : List.isPrefixOf "data: ".data (rstripCR line) = true)
    (hdone : pyStrip ((rstripCR line).drop 6) ≠ "[DONE]".data)
    (hne : pyStrip ((rstripCR line).drop 6) ≠ [])
    (hjson : jsonParse (pyStrip ((rstripCR line).drop 6)) = none) :
    processLine line = none
    ∧ (st.decode_chunk chunk).1
        = pre.filterMap processLine ++ post.filterMap processLine
    ∧ (st.decode_chunk chunk).2.buffer = (splitLines (st.buffer ++ str)).2 := by
  have hline : processLine line = none := by
    rw [processLine]
    simp only [hmark, if_true]
    rw [if_neg hdone, if_neg hne, hjson]
  refine ⟨hline, ?_, ?_⟩
  · simp only [SSEDecoder.decode_chunk, hdec, hsplit]
    simp [List.filterMap_append, hline]
  · simp [SSEDecoder.decode_chunk, hdec]

/-- Witness for C8: the chunk `data: notjson\ndata: [DONE]\n` produces only
the `done` event of its second line. -/
theorem C8_malformed_json_skipped_witness :
    processLine ("data: notjson".data) = none
    ∧ (SSEDecoder.init.decode_chunk (asciiBytes "data: notjson\ndata: [DONE]\n")).1
        = List.filterMap processLine []
            ++ List.filterMap processLine ["data: [DONE]".data]
    ∧ (SSEDecoder.init.decode_chunk (asciiBytes "data: notjson\ndata: [DONE]\n")).2.buffer
        = (splitLines (SSEDecoder.init.buffer
            ++ ("data: notjson\ndata: [DONE]\n".data))).2 :=
  C8_malformed_json_skipped SSEDecoder.init _ _ [] ["data: [DONE]".data]
    ("data: notjson".data) rfl rfl rfl (by decide) (by decide) rfl


/-! ## Claim C1: downstream chunk pass-through -/

/-- C1 (amended): the chunk sequence handed downstream is the original
captured sequence truncated immediately after the first chunk whose decoding
produces a `done` event (the whole sequence when no chunk does, and whenever
the buffered iterator is not installed, i.e. for non-streaming content types
or non-completion endpoints). Chunks arriving after the `[DONE]` chunk are
NOT yielded: the generator `return`s on the `done` event
(`C1_counterexample` refutes the unamended claim). -/
theorem C1_downstream_truncated_at_done :
    (∀ (st : SSEDecoder) (chunks : List (List Nat)),
        bufferedIterator st chunks = chunks.take (firstDoneIdx st chunks + 1))
    ∧ (∀ (st : SSEDecoder) (chunks : List (List Nat)),
        firstDoneIdx st chunks = chunks.length → bufferedIterator st chunks = chunks)
    ∧ (∀ (path contentType : String) (chunks : List (List Nat)),
        log_response_downstream path contentType chunks = chunks
          ∨ log_response_downstream path contentType chunks
              = chunks.take (firstDoneIdx SSEDecoder.init chunks + 1)) := by
  have hmain : ∀ (chunks : List (List Nat)) (st : SSEDecoder),
      bufferedIterator st chunks = chunks.take (firstDoneIdx st chunks + 1) := by
    intro chunks
    induction chunks with
    | nil => intro st; rfl
    | cons ch rest ih =>
      intro st
      rw [bufferedIterator, firstDoneIdx]
      by_cases hdone : ((st.decode_chunk ch).1.any SSEEvent.isDone) = true
      · simp [hdone]
      · simp only [Bool.not_eq_true] at hdone
        simp only [hdone, Bool.false_eq_true, if_false]
        rw [ih]
        have : 1 + firstDoneIdx (st.decode_chunk ch).2 rest + 1
            = (firstDoneIdx (st.decode_chunk ch).2 rest + 1) + 1 := by omega
        rw [this, List.take_succ_cons]
  refine ⟨fun st chunks => hmain chunks st, ?_, ?_⟩
  · intro st chunks hlen
    rw [hmain chunks st, hlen]
    exact List.take_of_length_le (by omega)
  · intro path contentType chunks
    rw [log_response_downstream]
    by_cases hcond : (!chunks.isEmpty && contentType = "text/event-stream; charset=utf-8"
        && _is_completion_endpoint path) = true
    · rw [if_pos hcond]
      exact Or.inr (hmain chunks SSEDecoder.init)
    · rw [if_neg hcond]
      exact Or.inl rfl

/-- Witness for C1: a stream with no `done` event passes through unchanged. -/
theorem C1_downstream_truncated_at_done_witness :
    bufferedIterator SSEDecoder.init [asciiBytes "data: hello\n"]
      = [asciiBytes "data: hello\n"] :=
  C1_downstream_truncated_at_done.2.1 SSEDecoder.init [asciiBytes "data: hello\n"] rfl

/-- C1 counterexample: on a completion endpoint with a streaming content
type, a chunk arriving after the `[DONE]` frame is dropped — the downstream
sequence is not the captured sequence. -/
theorem C1_counterexample :
    log_response_downstream "/v1/completions" "text/event-stream; charset=utf-8"
        [asciiBytes "data: [DONE]\n", asciiBytes "x"]
      ≠ [asciiBytes "data: [DONE]\n", asciiBytes "x"] := by
  intro hcontra
  have hlen : (log_response_downstream "/v1/completions" "text/event-stream; charset=utf-8"
      [asciiBytes "data: [DONE]\n", asciiBytes "x"]).length = 1 := rfl
  rw [hcontra] at hlen
  simp at hlen

/-! ## Claim C2: the wrapper can itself raise -/

/-- Original method used for the C2 evaluation: returns `7` whatever the
arguments. -/
def c2Method : PyMethod := fun _ _ => .ok (.int 7)

/-- C2: evaluation of the wrapper at the failing input. The wrapped method
`f(self, a, request_id, b)` (cached `request_id` index 2) is called as
`f(obj, 1, request_id=None, b=2)` — a combination the original accepts — and
the wrapper raises `IndexError` out of
`kwargs.get("request_id") or args[request_id_index]` instead of executing
untraced: `args` has length 2, the keyword value `None` is falsy, so
`args[2]` is evaluated and fails before the original method runs. -/
theorem C2_wrapper_raises_IndexError :
    create_traced_method "m" "C" "f" 2 c2Method
      [PyVal.obj 0, PyVal.int 1] [("request_id", PyVal.none), ("b", PyVal.int 2)]
      = (.exn "IndexError", []) := rfl

/-! ## Claim C5: parameter-index resolution and trace lines -/

/-- C5: wrapping `f(self, a, request_id, b)` (index 2) and calling it with
`request_id="abc"` yields exactly one start and one end line, both on the
target module's logger `"m"` and both containing `"abc"` and the
fully-qualified name `m.C.f`, with the original result returned unchanged;
calling it with `request_id=None` (positionally) yields zero trace lines on
the module logger and still returns the original result. -/
theorem C5_trace_lines :
    (∀ (method : PyMethod) (r : PyVal),
        method [PyVal.obj 0, PyVal.int 1]
            [("request_id", PyVal.str "abc"), ("b", PyVal.int 2)] = .ok r →
        create_traced_method "m" "C" "f" 2 method [PyVal.obj 0, PyVal.int 1]
            [("request_id", PyVal.str "abc"), ("b", PyVal.int 2)]
          = (.ok r,
              [⟨"m", .info, "[request_id=abc] Start calling method `m.C.f`"⟩,
               ⟨"m", .info, "[request_id=abc] End calling method `m.C.f`"⟩]))
    ∧ (strContains "[request_id=abc] Start calling method `m.C.f`" "abc" = true
        ∧ strContains "[request_id=abc] Start calling method `m.C.f`" "m.C.f" = true
        ∧ strContains "[request_id=abc] End calling method `m.C.f`" "abc" = true
        ∧ strContains "[request_id=abc] End calling method `m.C.f`" "m.C.f" = true)
    ∧ (∀ (method : PyMethod),
        (create_traced_method "m" "C" "f" 2 method
            [PyVal.obj 0, PyVal.int 1, PyVal.none, PyVal.int 2] []).1
          = method [PyVal.obj 0, PyVal.int 1, PyVal.none, PyVal.int 2] []
        ∧ ((create_traced_method "m" "C" "f" 2 method
            [PyVal.obj 0, PyVal.int 1, PyVal.none, PyVal.int 2] []).2).filter
              (fun e => e.logger = "m") = []) := by
  refine ⟨?_, by decide, fun method => ⟨rfl, rfl⟩⟩
  intro method r h
  have hred : create_traced_method "m" "C" "f" 2 method [PyVal.obj 0, PyVal.int 1]
      [("request_id", PyVal.str "abc"), ("b", PyVal.int 2)]
      = (match method [PyVal.obj 0, PyVal.int 1]
            [("request_id", PyVal.str "abc"), ("b", PyVal.int 2)] with
         | RunResult.ok result =>
            (RunResult.ok result,
              [⟨"m", .info, "[request_id=abc] Start calling method `m.C.f`"⟩,
               ⟨"m", .info, "[request_id=abc] End calling method `m.C.f`"⟩])
         | RunResult.exn e =>
            (RunResult.exn e,
              [⟨"m", .info, "[request_id=abc] Start calling method `m.C.f`"⟩])) := rfl
  rw [hred, h]

/-- Witness for C5 with a concrete original method returning `42`. -/
theorem C5_trace_lines_witness :
    create_traced_method "m" "C" "f" 2 (fun _ _ => .ok (.int 42))
        [PyVal.obj 0, PyVal.int 1] [("request_id", PyVal.str "abc"), ("b", PyVal.int 2)]
      = (.ok (.int 42),
          [⟨"m", .info, "[request_id=abc] Start calling method `m.C.f`"⟩,
           ⟨"m", .info, "[request_id=abc] End calling method `m.C.f`"⟩]) :=
  C5_trace_lines.1 (fun _ _ => .ok (.int 42)) (.int 42) rfl

/-! ## Claim C6: sink reconfiguration is idempotent in its final state -/

/-- C6: however many times (`n ≥ 1`) `reset_logger_config` runs on a logger,
the logger ends with exactly the two fresh handlers — one stream (console)
handler and one rotating file handler, both carrying the shared formatter
and level — never an accumulation of `2n` handlers, because each call clears
the handler list before attaching the two new ones. -/
theorem C6_reset_logger_config_idempotent (env : LoggerEnv) (logger : ModelLogger)
    (n : Nat) (hn : 1 ≤ n) :
    ((reset_logger_config env)^[n] logger).handlers
        = [{ make_stream_handler with
              formatter := some (make_kubernetes_formatter env),
              level := some env.logLevel },
           { make_file_handler env with
              formatter := some (make_kubernetes_formatter env),
              level := some env.logLevel }]
    ∧ ((reset_logger_config env)^[n] logger).handlers.length = 2 := by
  have hconst : ∀ l : ModelLogger, reset_logger_config env l
      = ⟨[{ make_stream_handler with
              formatter := some (make_kubernetes_formatter env),
              level := some env.logLevel },
          { make_file_handler env with
              formatter := some (make_kubernetes_formatter env),
              level := some env.logLevel }]⟩ := by
    intro l
    rfl
  obtain ⟨m, rfl⟩ : ∃ m, n = m + 1 := ⟨n - 1, by omega⟩
  rw [Function.iterate_succ_apply', hconst]
  exact ⟨rfl, rfl⟩

/-- Witness for C6: two successive calls on a logger that starts with one
stale handler still end with exactly the two fresh sinks. -/
theorem C6_reset_logger_config_idempotent_witness :
    ((reset_logger_config ⟨"app", "fmt", "date", "/tmp/logs", "api_server.log", 8388608, 5, 20⟩)^[2]
        ⟨[⟨.stream, Option.none, Option.none⟩]⟩).handlers
      = [⟨.stream, some ⟨"fmt", "date"⟩, some 20⟩,
         ⟨.rotatingFile "/tmp/logs/api_server.log" 8388608 5 "utf8", some ⟨"fmt", "date"⟩, some 20⟩]
    ∧ ((reset_logger_config ⟨"app", "fmt", "date", "/tmp/logs", "api_server.log", 8388608, 5, 20⟩)^[2]
        ⟨[⟨.stream, Option.none, Option.none⟩]⟩).handlers.length = 2 :=
  C6_reset_logger_config_idempotent
    ⟨"app", "fmt", "date", "/tmp/logs", "api_server.log", 8388608, 5, 20⟩
    ⟨[⟨.stream, Option.none, Option.none⟩]⟩ 2 (by omega)

/-! ## Claim C7: method-identifier grammar -/

theorem rsplitChar_join {sep : Char} : ∀ {l pre post : List Char},
    rsplitChar sep l = some (pre, post) → l = pre ++ sep :: post := by
  intro l
  induction l with
  | nil => intro pre post h; simp [rsplitChar] at h
  | cons c cs ih =>
    intro pre post h
    rw [rsplitChar] at h
    revert h
    cases hr : rsplitChar sep cs with
    | some p =>
      intro h
      simp only [Option.some.injEq, Prod.mk.injEq] at h
      obtain ⟨h1, h2⟩ := h
      subst h1
      subst h2
      rcases p with ⟨p1, p2⟩
      have hjoin := @ih p1 p2 hr
      simp [hjoin]
    | none =>
      intro h
      by_cases hc : c = sep
      · rw [if_pos hc] at h
        simp only [Option.some.injEq, Prod.mk.injEq] at h
        obtain ⟨h1, h2⟩ := h
        subst h1
        subst h2
        simp [hc]
      · rw [if_neg hc] at h
        exact Option.noConfusion h

/-- C7: `parse_method_name` maps `"a.b.C:m"` to `("a.b", "C", "m")`, rejects
`"bad"` with a format error, deterministically rejects `"a:b:c"` (the method
name splits off at the LAST colon, then the class name at the last dot of
the remaining prefix, which here holds no dot), and every successful parse
is inverted by reconstructing `"<module>.<Class>:<method>"`. -/
theorem C7_parse_method_name_grammar :
    parse_method_name "a.b.C:m" = .ok ("a.b", "C", "m")
    ∧ (∃ msg, parse_method_name "bad" = .error msg)
    ∧ (∃ msg, parse_method_name "a:b:c" = .error msg)
    ∧ ∀ (s m c meth : String), parse_method_name s = .ok (m, c, meth) →
        m ++ "." ++ c ++ ":" ++ meth = s := by
  refine ⟨rfl, ⟨_, rfl⟩, ⟨_, rfl⟩, ?_⟩
  intro s m c meth h
  rw [parse_method_name] at h
  split at h
  · exact Except.noConfusion h
  · rename_i mc mth heq1
    split at h
    · exact Except.noConfusion h
    · rename_i md cd heq2
      simp only [Except.ok.injEq, Prod.mk.injEq] at h
      obtain ⟨hm, hc, hmeth⟩ := h
      subst hm
      subst hc
      subst hmeth
      have hj1 : s.data = mc ++ ':' :: mth := rsplitChar_join heq1
      have hj2 : mc = md ++ '.' :: cd := rsplitChar_join heq2
      have hdata : ((((md ++ ['.']) ++ cd) ++ [':']) ++ mth) = s.data := by
        rw [hj1, hj2]
        simp
      calc String.mk md ++ "." ++ String.mk cd ++ ":" ++ String.mk mth
          = String.mk ((((md ++ ['.']) ++ cd) ++ [':']) ++ mth) := rfl
        _ = String.mk s.data := by rw [hdata]
        _ = s := rfl

/-- Witness for C7: the reconstruction clause applied at `"a.b.C:m"`. -/
theorem C7_parse_method_name_grammar_witness :
    ("a.b" ++ "." ++ "C" ++ ":" ++ "m" : String) = "a.b.C:m" :=
  C7_parse_method_name_grammar.2.2.2 "a.b.C:m" "a.b" "C" "m" rfl


/-! ## Claim C9: scanner output is sorted and duplicate-free -/

theorem lexLe_trans : ∀ {a b c : List Char},
    lexLe a b = true → lexLe b c = true → lexLe a c = true
  | [], _, _, _, _ => rfl
  | _ :: _, [], _, h, _ => by simp [lexLe] at h
  | _ :: _, _ :: _, [], _, h => by simp [lexLe] at h
  | x :: xs, y :: ys, z :: zs, h1, h2 => by
    by_cases hxy : x.toNat < y.toNat
    · by_cases hyz : y.toNat < z.toNat
      · have hxz : x.toNat < z.toNat := by omega
        simp [lexLe, hxz]
      · by_cases hzy : z.toNat < y.toNat
        · simp only [lexLe, if_neg hyz, if_pos hzy] at h2
          exact absurd h2 (by simp)
        · have hxz : x.toNat < z.toNat := by omega
          simp [lexLe, hxz]
    · by_cases hyx : y.toNat < x.toNat
      · simp only [lexLe, if_neg hxy, if_pos hyx] at h1
        exact absurd h1 (by simp)
      · simp only [lexLe, if_neg hxy, if_neg hyx] at h1
        by_cases hyz : y.toNat < z.toNat
        · have hxz : x.toNat < z.toNat := by omega
          simp [lexLe, hxz]
        · by_cases hzy : z.toNat < y.toNat
          · simp only [lexLe, if_neg hyz, if_pos hzy] at h2
            exact absurd h2 (by simp)
          · simp only [lexLe, if_neg hyz, if_neg hzy] at h2
            have hxz : ¬x.toNat < z.toNat := by omega
            have hzx : ¬z.toNat < x.toNat := by omega
            simp only [lexLe, if_neg hxz, if_neg hzx]
            exact lexLe_trans h1 h2

theorem lexLe_total : ∀ (a b : List Char), lexLe a b = true ∨ lexLe b a = true
  | [], _ => Or.inl rfl
  | _ :: _, [] => Or.inr rfl
  | x :: xs, y :: ys => by
    by_cases hxy : x.toNat < y.toNat
    · exact Or.inl (by simp [lexLe, hxy])
    · by_cases hyx : y.toNat < x.toNat
      · exact Or.inr (by simp [lexLe, hyx])
      · rcases lexLe_total xs ys with h | h
        · exact Or.inl (by simp [lexLe, hxy, hyx, h])
        · exact Or.inr (by simp [lexLe, hxy, hyx, h])

theorem pySorted_sorted (l : List String) : List.Sorted pyStrLe (pySorted l) := by
  haveI : IsTrans String pyStrLe := ⟨fun _ _ _ h1 h2 => lexLe_trans h1 h2⟩
  haveI : IsTotal String pyStrLe := ⟨fun a b => lexLe_total a.data b.data⟩
  exact List.sorted_insertionSort pyStrLe l

theorem pySorted_nodup {l : List String} (h : l.Nodup) : (pySorted l).Nodup :=
  ((List.perm_insertionSort pyStrLe l).symm).nodup h

theorem string_data_append (a b : String) : (a ++ b).data = a.data ++ b.data := rfl

theorem string_eq_of_data {a b : String} (h : a.data = b.data) : a = b := by
  cases a
  cases b
  congr

theorem dotFree_forall {s : String} (h : dotFree s = true) : ∀ c ∈ s.data, c ≠ '.' := by
  intro c hc
  have := (List.all_eq_true.mp h) c hc
  simpa using this

theorem takeWhile_dotFree_append (l t : List Char) (hl : ∀ c ∈ l, c ≠ '.')
    (ht : t = [] ∨ ∃ r, t = '.' :: r) :
    (l ++ t).takeWhile (fun c => c != '.') = l := by
  induction l with
  | nil =>
    rcases ht with rfl | ⟨r, rfl⟩
    · rfl
    · simp [List.takeWhile]
  | cons c l' ih =>
    have hc : c ≠ '.' := hl c (List.mem_cons_self c l')
    have hchain : (c != '.') = true := by simpa using hc
    simp only [List.cons_append, List.takeWhile_cons, hchain, if_true]
    rw [ih (fun d hd => hl d (List.mem_cons_of_mem c hd))]

theorem dotExt_unpack {p s : String} (h : dotExt p s) :
    ∃ t, s.data = p.data ++ t ∧ (t = [] ∨ ∃ r, t = '.' :: r) := by
  rcases h with rfl | ⟨r, hr⟩
  · exact ⟨[], by simp, Or.inl rfl⟩
  · exact ⟨'.' :: r, hr, Or.inr ⟨r, rfl⟩⟩

theorem dotExt_inj {name seg1 seg2 s : String}
    (hf1 : dotFree seg1 = true) (hf2 : dotFree seg2 = true)
    (h1 : dotExt (name ++ "." ++ seg1) s) (h2 : dotExt (name ++ "." ++ seg2) s) :
    seg1 = seg2 := by
  obtain ⟨t1, he1, hs1⟩ := dotExt_unpack h1
  obtain ⟨t2, he2, hs2⟩ := dotExt_unpack h2
  rw [string_data_append, string_data_append] at he1 he2
  have hdot : (("." : String)).data = ['.'] := rfl
  rw [hdot] at he1 he2
  have hkey : seg1.data ++ t1 = seg2.data ++ t2 := by
    have := he1.symm.trans he2
    simpa [List.append_assoc] using this
  have htw1 : (seg1.data ++ t1).takeWhile (fun c => c != '.') = seg1.data :=
    takeWhile_dotFree_append _ _ (dotFree_forall hf1) hs1
  have htw2 : (seg2.data ++ t2).takeWhile (fun c => c != '.') = seg2.data :=
    takeWhile_dotFree_append _ _ (dotFree_forall hf2) hs2
  exact string_eq_of_data (htw1.symm.trans (by rw [hkey, htw2]))

theorem dotExt_absorb {name seg s : String} (h : dotExt (name ++ "." ++ seg) s) :
    ∃ r, s.data = name.data ++ '.' :: r := by
  obtain ⟨t, he, _⟩ := dotExt_unpack h
  rw [string_data_append, string_data_append] at he
  exact ⟨seg.data ++ t, by simpa [List.append_assoc] using he⟩

theorem dotExt_ne_base {name seg s : String} (h : dotExt (name ++ "." ++ seg) s) :
    s ≠ name := by
  obtain ⟨r, hr⟩ := dotExt_absorb h
  intro hcontra
  subst hcontra
  have := congrArg List.length hr
  simp at this

mutual
theorem loggerModsAux_shape (name : String) (t : PyModuleTree) :
    ∀ s ∈ loggerModsAux name t, dotExt name s := by
  cases t with
  | node importOk hasLogger classes children =>
    intro s hs
    rw [loggerModsAux] at hs
    by_cases him : importOk = true
    · rw [if_pos him] at hs
      rcases List.mem_append.mp hs with hleft | hright
      · left
        by_cases hl : hasLogger = true
        · rw [if_pos hl] at hleft
          simpa using hleft
        · rw [if_neg hl] at hleft
          exact absurd hleft (List.not_mem_nil s)
      · obtain ⟨seg, _, hext⟩ := loggerModsChildren_shape name children s hright
        exact Or.inr (dotExt_absorb hext)
    · rw [if_neg him] at hs
      exact absurd hs (List.not_mem_nil s)

theorem loggerModsChildren_shape (name : String) (ch : PyModuleChildren) :
    ∀ s ∈ loggerModsChildren name ch,
      ∃ seg, seg ∈ childSegs ch ∧ dotExt (name ++ "." ++ seg) s := by
  cases ch with
  | nil => intro s hs; rw [loggerModsChildren] at hs; exact absurd hs (List.not_mem_nil s)
  | cons seg child rest =>
    intro s hs
    rw [loggerModsChildren] at hs
    rcases List.mem_append.mp hs with hleft | hright
    · exact ⟨seg, by simp [childSegs],
        loggerModsAux_shape (name ++ "." ++ seg) child s hleft⟩
    · obtain ⟨seg', hm, hext⟩ := loggerModsChildren_shape name rest s hright
      exact ⟨seg', by simp [childSegs, hm], hext⟩
end

theorem wfChildren_parts {seg : String} {child : PyModuleTree} {rest : PyModuleChildren}
    (h : wfChildren (.cons seg child rest) = true) :
    dotFree seg = true ∧ seg ∉ childSegs rest ∧ wfTree child = true ∧ wfChildren rest = true := by
  rw [wfChildren] at h
  simp only [Bool.and_eq_true, Bool.not_eq_true'] at h
  obtain ⟨⟨⟨hdf, hmem⟩, hwt⟩, hwc⟩ := h
  refine ⟨hdf, ?_, hwt, hwc⟩
  intro hcontra
  have : (childSegs rest).contains seg = true := by
    simpa using List.elem_iff.mpr hcontra
  rw [this] at hmem
  exact Bool.noConfusion hmem

theorem wfChildren_dotFree : ∀ {ch : PyModuleChildren}, wfChildren ch = true →
    ∀ seg ∈ childSegs ch, dotFree seg = true
  | .nil, _, seg, hseg => absurd (by rw [childSegs] at hseg; exact hseg) (List.not_mem_nil seg)
  | .cons seg' child rest, hwf, seg, hseg => by
    obtain ⟨hdf, _, _, hwc⟩ := wfChildren_parts hwf
    rw [childSegs] at hseg
    rcases List.mem_cons.mp hseg with rfl | hm
    · exact hdf
    · exact wfChildren_dotFree hwc seg hm

mutual
theorem loggerModsAux_nodup (t : PyModuleTree) :
    ∀ (name : String), wfTree t = true → (loggerModsAux name t).Nodup := by
  cases t with
  | node importOk hasLogger classes children =>
    intro name hwf
    rw [loggerModsAux]
    by_cases him : importOk = true
    · rw [if_pos him]
      rw [List.nodup_append]
      refine ⟨?_, loggerModsChildren_nodup children name (by rw [wfTree] at hwf; exact hwf), ?_⟩
      · by_cases hl : hasLogger = true <;> simp [hl]
      · intro s hs1 hs2
        have hsname : s = name := by
          by_cases hl : hasLogger = true
          · rw [if_pos hl] at hs1; simpa using hs1
          · rw [if_neg hl] at hs1; exact absurd hs1 (List.not_mem_nil s)
        obtain ⟨seg, _, hext⟩ := loggerModsChildren_shape name children s hs2
        exact dotExt_ne_base hext hsname
    · rw [if_neg him]
      exact List.nodup_nil

theorem loggerModsChildren_nodup (ch : PyModuleChildren) :
    ∀ (name : String), wfChildren ch = true → (loggerModsChildren name ch).Nodup := by
  cases ch with
  | nil => intro name _; rw [loggerModsChildren]; exact List.nodup_nil
  | cons seg child rest =>
    intro name hwf
    obtain ⟨hdf, hnm, hwt, hwc⟩ := wfChildren_parts hwf
    rw [loggerModsChildren]
    rw [List.nodup_append]
    refine ⟨loggerModsAux_nodup child (name ++ "." ++ seg) hwt,
      loggerModsChildren_nodup rest name hwc, ?_⟩
    intro s hs1 hs2
    have hext1 := loggerModsAux_shape (name ++ "." ++ seg) child s hs1
    obtain ⟨seg', hm', hext2⟩ := loggerModsChildren_shape name rest s hs2
    have hdf' : dotFree seg' = true := wfChildren_dotFree hwc seg' hm'
    have : seg = seg' := dotExt_inj hdf hdf' hext1 hext2
    subst this
    exact hnm hm'
end

theorem appendNew_nodup (xs : List String) : ∀ (acc : List String), acc.Nodup →
    (appendNew acc xs).Nodup := by
  induction xs with
  | nil => intro acc h; exact h
  | cons x xs ih =>
    intro acc h
    rw [appendNew, List.foldl_cons]
    by_cases hx : x ∈ acc
    · rw [if_pos hx]
      exact ih acc h
    · rw [if_neg hx]
      refine ih _ ?_
      have hperm := List.perm_append_singleton x acc
      exact hperm.symm.nodup (List.nodup_cons.mpr ⟨hx, h⟩)

mutual
theorem methodsAux_nodup (ii : Bool) (t : PyModuleTree) :
    ∀ (name : String) (acc : List String), acc.Nodup → (methodsAux ii name t acc).Nodup := by
  cases t with
  | node importOk hasLogger classes children =>
    intro name acc h
    rw [methodsAux]
    by_cases him : importOk = true
    · rw [if_pos him]
      exact methodsChildren_nodup ii children name _
        (appendNew_nodup (classMethods name ii classes) acc h)
    · rw [if_neg him]
      exact h

theorem methodsChildren_nodup (ii : Bool) (ch : PyModuleChildren) :
    ∀ (name : String) (acc : List String), acc.Nodup → (methodsChildren ii name ch acc).Nodup := by
  cases ch with
  | nil => intro name acc h; exact h
  | cons seg child rest =>
    intro name acc h
    rw [methodsChildren]
    exact methodsChildren_nodup ii rest name _
      (methodsAux_nodup ii child (name ++ "." ++ seg) acc h)
end

/-- C9: for every reflected package tree, `find_logger_modules` and
`find_methods_with_request_id` return ascending code-point-sorted lists
without duplicates (for the logger list, under the shape `pkgutil` and
Python module naming guarantee: per-package submodule names are distinct and
dot-free). In the pure model, two scans of the same fixed tree are the same
function application, so the outputs are identical. -/
theorem C9_scanner_sorted_dedup :
    (∀ (root : String) (t : PyModuleTree),
        List.Sorted pyStrLe (find_logger_modules root t))
    ∧ (∀ (root : String) (t : PyModuleTree), wfTree t = true →
        (find_logger_modules root t).Nodup)
    ∧ (∀ (root : String) (ii : Bool) (t : PyModuleTree),
        List.Sorted pyStrLe (find_methods_with_request_id root ii t))
    ∧ (∀ (root : String) (ii : Bool) (t : PyModuleTree),
        (find_methods_with_request_id root ii t).Nodup) :=
  ⟨fun root t => pySorted_sorted (loggerModsAux root t),
   fun root t hwf => pySorted_nodup (loggerModsAux_nodup t root hwf),
   fun root ii t => pySorted_sorted (methodsAux ii root t []),
   fun root ii t => pySorted_nodup (methodsAux_nodup ii t root [] List.nodup_nil)⟩

/-- Concrete reflected tree used by the C9 witness. -/
def c9Tree : PyModuleTree :=
  .node true true
    [⟨"Sched", true, [⟨"abort", ["self", "request_id"]⟩, ⟨"step", ["self"]⟩]⟩]
    (.cons "core" (.node true true [] .nil)
      (.cons "engine" (.node true false
          [⟨"Engine", true, [⟨"add", ["self", "req_id"]⟩]⟩] .nil) .nil))

/-- Witness for C9 at a concrete well-formed tree. -/
theorem C9_scanner_sorted_dedup_witness :
    wfTree c9Tree = true ∧ (find_logger_modules "vllm" c9Tree).Nodup :=
  ⟨rfl, C9_scanner_sorted_dedup.2.1 "vllm" c9Tree rfl⟩

end VKP
